import Mathlib

/-!
Shallow embedding of `mnemonist/dynamic-array.js` (the DynamicArray growable
buffer) and verification of its specification claims.

Modelling conventions:
- The JavaScript object state `{ length, capacity, array }` becomes the
  structure `DynamicArray α`; the element type `α` abstracts the numeric
  element kind of the typed-array class, and the zero value `z : α` models
  the fill value of a freshly allocated typed array (JS typed arrays are
  zero-initialised).
- The fields `ArrayClass` and `policy` of the JS object never change after
  construction, so they are passed as explicit parameters (`z` and `policy`)
  to the operations instead of being stored.
- A typed-array read `arr[i]` is `List.get?` (out-of-range reads yield
  `undefined`, i.e. `none`); a typed-array write `arr[i] = v` is `List.set`
  (out-of-range writes are silently dropped, exactly as `List.set` does).
- Capacities and indices are `Nat`; the default policy
  `Math.ceil(currentSize * 1.5)` is the exact natural number
  `(3 * c + 1) / 2`.
- The growth loop inside `set` need not terminate for an arbitrary policy,
  so it takes explicit fuel; running out of fuel is reported as `diverged`.
  Exhausting every fuel value is the embedding of an infinite loop.
- A thrown exception is modelled by a `policyViolation` result carrying the
  object state at the moment of the throw (the JS code mutates
  `this.capacity` before throwing, and the model preserves that).
-/

namespace Mnemonist

variable {α : Type}

/-- State of a `DynamicArray` instance: its `length`, `capacity` and backing
typed array `array` (`this.array`), modelled as a list whose length is the
allocated size. -/
structure DynamicArray (α : Type) where
  length : Nat
  capacity : Nat
  array : List α
deriving DecidableEq, Repr

/-- `var DEFAULT_GROWING_POLICY = function (currentSize) ... ` returns
`Math.ceil(currentSize * 1.5)`, which on naturals is `(3 * c + 1) / 2`. -/
def DEFAULT_GROWING_POLICY (currentSize : Nat) : Nat :=
  (3 * currentSize + 1) / 2

/-- The constructor `DynamicArray(ArrayClass, initialCapacity)`: length 0,
capacity `initialCapacity`, and a freshly allocated (zero-filled) block of
`initialCapacity` slots. -/
def DynamicArray.make (z : α) (initialCapacity : Nat) : DynamicArray α :=
  { length := 0, capacity := initialCapacity,
    array := List.replicate initialCapacity z }

/-- The transfer loop `for (var i = 0, l = length; i < l; i++) newA[i] = oldA[i]`
run for indices `0 .. l-1`. A read past the end of `oldA` yields `undefined`,
which a typed-array store coerces to the zero value `z` (only reachable from
malformed states). -/
def copyLoop (z : α) (oldA newA : List α) : Nat → List α
  | 0 => newA
  | Nat.succ i => (copyLoop z oldA newA i).set i (oldA.getD i z)

/-- `DynamicArray.prototype.get`: `if (this.length < index) return undefined;
return this.array[index];` — note the guard is the strict `length < index`
of the source. -/
def DynamicArray.get (a : DynamicArray α) (index : Nat) : Option α :=
  if a.length < index then none
  else a.array.get? index

/-- Result of `grow` (and of the growth step of `push`): either the updated
object, or the `PolicyViolation` throw carrying the object state at the
moment of the throw. -/
inductive GrowRes (α : Type) where
  | ok (a : DynamicArray α)
  | policyViolation (a : DynamicArray α)
deriving DecidableEq, Repr

/-- `DynamicArray.prototype.grow`: assigns `this.capacity = policy(capacity)`
first, then throws if the result is not a strict increase; on success it
allocates the new block and copies the first `length` slots. -/
def DynamicArray.grow (z : α) (policy : Nat → Nat) (a : DynamicArray α) :
    GrowRes α :=
  let capacity := a.capacity
  let newCap := policy capacity
  if newCap ≤ capacity then
    GrowRes.policyViolation { a with capacity := newCap }
  else
    GrowRes.ok { a with
      capacity := newCap
      array := copyLoop z a.array (List.replicate newCap z) a.length }

/-- Outcome of the `while (index >= this.capacity)` loop of `set`. -/
inductive LoopRes where
  | ok (c : Nat)
  | bad (c : Nat)
deriving DecidableEq, Repr

/-- The growth loop of `set`: starting from capacity `c`, repeatedly apply the
policy while `index >= c`; each application is compared against `cap0`, the
snapshot of `this.capacity` taken at the top of `set`. `none` means the fuel
ran out (the loop had not exited). -/
def growLoop (policy : Nat → Nat) (cap0 index : Nat) :
    Nat → Nat → Option LoopRes
  | 0, c => if index < c then some (LoopRes.ok c) else none
  | Nat.succ f, c =>
    if index < c then some (LoopRes.ok c)
    else
      let c' := policy c
      if c' ≤ cap0 then some (LoopRes.bad c')
      else growLoop policy cap0 index f c'

/-- The tail of `set` after any growth: `this.array[index] = value;`
`index++; if (index > this.length) this.length = index;`. -/
def finishSet (a : DynamicArray α) (index : Nat) (value : α) : DynamicArray α :=
  { a with
    array := a.array.set index value
    length := if index + 1 > a.length then index + 1 else a.length }

/-- Result of `set`: success (the method returns `this`, i.e. the updated
object), a `PolicyViolation` throw, or divergence of the growth loop. -/
inductive SetRes (α : Type) where
  | ok (a : DynamicArray α)
  | policyViolation (a : DynamicArray α)
  | diverged
deriving DecidableEq, Repr

/-- `DynamicArray.prototype.set` with explicit fuel for the growth loop. When
`index >= capacity` it runs the growth loop, then reallocates and copies the
first `length` slots; in every case it then writes the value and bumps the
length. -/
def DynamicArray.set (z : α) (policy : Nat → Nat) (fuel : Nat)
    (a : DynamicArray α) (index : Nat) (value : α) : SetRes α :=
  let capacity := a.capacity
  if capacity ≤ index then
    match growLoop policy capacity index fuel a.capacity with
    | none => SetRes.diverged
    | some (LoopRes.bad c) => SetRes.policyViolation { a with capacity := c }
    | some (LoopRes.ok c) =>
        SetRes.ok (finishSet
          { a with
            capacity := c
            array := copyLoop z a.array (List.replicate c z) a.length }
          index value)
  else
    SetRes.ok (finishSet a index value)

/-- Result of `push`: the updated object together with the returned new
length, or the propagated `PolicyViolation` of the inner `grow`. -/
inductive PushRes (α : Type) where
  | ok (a : DynamicArray α) (ret : Nat)
  | policyViolation (a : DynamicArray α)
deriving DecidableEq, Repr

/-- `DynamicArray.prototype.push`: grow when `length >= capacity`, then
`this.array[this.length++] = value; return this.length;`. -/
def DynamicArray.push (z : α) (policy : Nat → Nat) (a : DynamicArray α)
    (value : α) : PushRes α :=
  if a.capacity ≤ a.length then
    match a.grow z policy with
    | GrowRes.policyViolation s => PushRes.policyViolation s
    | GrowRes.ok a1 =>
        PushRes.ok
          { a1 with
            array := a1.array.set a1.length value
            length := a1.length + 1 }
          (a1.length + 1)
  else
    PushRes.ok
      { a with
        array := a.array.set a.length value
        length := a.length + 1 }
      (a.length + 1)

/-- `DynamicArray.prototype.pop`: on an empty buffer return `undefined`
without mutating; otherwise `return this.array[--this.length]`. -/
def DynamicArray.pop (a : DynamicArray α) : DynamicArray α × Option α :=
  if a.length = 0 then (a, none)
  else ({ a with length := a.length - 1 }, a.array.get? (a.length - 1))

/-- Well-formedness of a buffer state: `0 <= length <= capacity` and the
capacity field equals the allocated size of the backing block. -/
def DynamicArray.Wf (a : DynamicArray α) : Prop :=
  a.length ≤ a.capacity ∧ a.capacity = a.array.length

instance (a : DynamicArray α) : Decidable a.Wf := by
  unfold DynamicArray.Wf; infer_instance

/-- One client-visible operation on a buffer. -/
inductive Op (α : Type) where
  | get (index : Nat)
  | set (index : Nat) (value : α)
  | push (value : α)
  | pop
  | grow
deriving DecidableEq, Repr

/-- Run one operation. A thrown `PolicyViolation` propagates to the caller
(the sequence has no continuation), and a divergent growth loop never
produces a next state; both are `none`. `get` and `pop` always complete. -/
def step (z : α) (policy : Nat → Nat) (fuel : Nat) (a : DynamicArray α) :
    Op α → Option (DynamicArray α)
  | Op.get _ => some a
  | Op.set i v =>
    match a.set z policy fuel i v with
    | SetRes.ok a1 => some a1
    | _ => none
  | Op.push v =>
    match a.push z policy v with
    | PushRes.ok a1 _ => some a1
    | _ => none
  | Op.pop => some (a.pop).1
  | Op.grow =>
    match a.grow z policy with
    | GrowRes.ok a1 => some a1
    | _ => none

/-- Run a finite sequence of operations from a given state. -/
def runOps (z : α) (policy : Nat → Nat) (fuel : Nat) :
    DynamicArray α → List (Op α) → Option (DynamicArray α)
  | a, [] => some a
  | a, op :: ops =>
    match step z policy fuel a op with
    | none => none
    | some a1 => runOps z policy fuel a1 ops

/-- Run one operation with a thrown `PolicyViolation` caught by the caller:
after the catch the buffer keeps the state it had at the moment of the throw
(capacity already overwritten) and can be used further. Only a divergent
growth loop yields no next state, since an infinite loop never returns. -/
def stepCatch (z : α) (policy : Nat → Nat) (fuel : Nat) (a : DynamicArray α) :
    Op α → Option (DynamicArray α)
  | Op.get _ => some a
  | Op.set i v =>
    match a.set z policy fuel i v with
    | SetRes.ok a1 => some a1
    | SetRes.policyViolation a1 => some a1
    | SetRes.diverged => none
  | Op.push v =>
    match a.push z policy v with
    | PushRes.ok a1 _ => some a1
    | PushRes.policyViolation a1 => some a1
  | Op.pop => some (a.pop).1
  | Op.grow =>
    match a.grow z policy with
    | GrowRes.ok a1 => some a1
    | GrowRes.policyViolation a1 => some a1

/-- Run a finite sequence of operations, catching every `PolicyViolation`
and continuing on the state left behind by the throw. -/
def runOpsCatch (z : α) (policy : Nat → Nat) (fuel : Nat) :
    DynamicArray α → List (Op α) → Option (DynamicArray α)
  | a, [] => some a
  | a, op :: ops =>
    match stepCatch z policy fuel a op with
    | none => none
    | some a1 => runOpsCatch z policy fuel a1 ops

/-- Push a list of values in order, propagating a `PolicyViolation`. -/
def pushSeq (z : α) (policy : Nat → Nat) :
    DynamicArray α → List α → Option (DynamicArray α)
  | a, [] => some a
  | a, v :: vs =>
    match a.push z policy v with
    | PushRes.ok a1 _ => pushSeq z policy a1 vs
    | PushRes.policyViolation _ => none

/-- The composite scenario of the pop/push inverse claim: `pop()` and, when a
value came back, `push` of that same value; `none` when the buffer was empty
or the push threw. -/
def popThenPush (z : α) (policy : Nat → Nat) (a : DynamicArray α) :
    Option (DynamicArray α) :=
  match (a.pop).2 with
  | none => none
  | some x =>
    match (a.pop).1.push z policy x with
    | PushRes.ok a2 _ => some a2
    | PushRes.policyViolation _ => none

/-- Concrete policy used to exhibit the snapshot comparison of the growth
loop: from 0 it jumps to 5, from 5 it falls back to 3 (a non-increasing
application), and from 3 it jumps to 20. -/
def oscPolicy : Nat → Nat
  | 0 => 5
  | 5 => 3
  | 3 => 20
  | c => c + 1

/-- Concrete policy that stalls at 4: strictly above a zero entry capacity,
so the growth loop of `set` never exits and never errors for indices `>= 4`. -/
def stallPolicy (c : Nat) : Nat :=
  min (c + 1) 4

/-- An in-range read is the `getD` value, for any default. -/
theorem get?_of_getD (z : α) {l : List α} {i : Nat} (h : i < l.length) :
    l.get? i = some (l.getD i z) := by
  rw [List.get?_eq_get h, List.getD_eq_get?, List.get?_eq_get h]
  rfl

/-- The transfer loop does not change the size of the destination block. -/
theorem copyLoop_length (z : α) (oldA newA : List α) (l : Nat) :
    (copyLoop z oldA newA l).length = newA.length := by
  induction l with
  | zero => rfl
  | succ i ih => simp [copyLoop, List.length_set, ih]

/-- Slots at or beyond the copied range keep the destination's contents. -/
theorem copyLoop_get?_ge (z : α) (oldA newA : List α) {l i : Nat}
    (h : l ≤ i) : (copyLoop z oldA newA l).get? i = newA.get? i := by
  induction l with
  | zero => rfl
  | succ m ih =>
    have hm : m ≠ i := by omega
    simp only [copyLoop]
    rw [List.get?_set_ne _ _ hm, ih (by omega)]

/-- Slots inside the copied range hold the source's contents (clipped to the
destination size). -/
theorem copyLoop_get?_lt (z : α) (oldA newA : List α) {l i : Nat}
    (h : i < l) :
    (copyLoop z oldA newA l).get? i =
      if i < newA.length then some (oldA.getD i z) else none := by
  induction l with
  | zero => omega
  | succ m ih =>
    by_cases hi : i = m
    · subst hi
      simp only [copyLoop]
      by_cases hn : i < newA.length
      · rw [List.get?_set_eq_of_lt _ (by rw [copyLoop_length]; exact hn)]
        simp [hn]
      · rw [List.get?_len_le (by rw [List.length_set, copyLoop_length]; omega)]
        simp [hn]
    · have hil : i < m := by omega
      simp only [copyLoop]
      rw [List.get?_set_ne _ _ (by omega : m ≠ i), ih hil]

/-- A successful growth loop stops at a capacity above the index; unless the
loop body never ran, that capacity is strictly above the snapshot `cap0`. -/
theorem growLoop_ok {policy : Nat → Nat} {cap0 index fuel c c' : Nat}
    (h : growLoop policy cap0 index fuel c = some (LoopRes.ok c')) :
    index < c' ∧ (c' = c ∨ cap0 < c') := by
  induction fuel generalizing c with
  | zero =>
    rw [growLoop] at h
    by_cases hc : index < c
    · simp [hc] at h
      exact ⟨h ▸ hc, Or.inl h.symm⟩
    · simp [hc] at h
  | succ f ih =>
    rw [growLoop] at h
    by_cases hc : index < c
    · simp [hc] at h
      exact ⟨h ▸ hc, Or.inl h.symm⟩
    · simp only [if_neg hc] at h
      by_cases hb : policy c ≤ cap0
      · simp [hb] at h
      · simp only [if_neg hb] at h
        rcases ih h with ⟨h1, h2⟩
        refine ⟨h1, Or.inr ?_⟩
        rcases h2 with h2 | h2
        · omega
        · exact h2

/-- The growth loop reports a violation only for a value at or below the
snapshot `cap0`. -/
theorem growLoop_bad {policy : Nat → Nat} {cap0 index fuel c c' : Nat}
    (h : growLoop policy cap0 index fuel c = some (LoopRes.bad c')) :
    c' ≤ cap0 := by
  induction fuel generalizing c with
  | zero =>
    rw [growLoop] at h
    by_cases hc : index < c <;> simp [hc] at h
  | succ f ih =>
    rw [growLoop] at h
    by_cases hc : index < c
    · simp [hc] at h
    · simp only [if_neg hc] at h
      by_cases hb : policy c ≤ cap0
      · simp [hb] at h
        omega
      · simp only [if_neg hb] at h
        exact ih h

/-- The length update of the tail of `set` computes `max length (index+1)`. -/
theorem finishSet_length (a : DynamicArray α) (index : Nat) (value : α) :
    (finishSet a index value).length = max a.length (index + 1) := by
  simp only [finishSet]
  rw [Nat.max_def]
  split_ifs <;> omega

/-- Full characterisation of a successful `grow`. -/
theorem grow_ok_spec {z : α} {policy : Nat → Nat} {a a1 : DynamicArray α}
    (hw : a.Wf) (h : a.grow z policy = GrowRes.ok a1) :
    a1.Wf ∧ a1.length = a.length ∧ a.capacity < a1.capacity ∧
      ∀ i, i < a.length → a1.array.get? i = a.array.get? i := by
  rcases hw with ⟨hlen, hcap⟩
  unfold DynamicArray.grow at h
  by_cases hc : policy a.capacity ≤ a.capacity
  · simp [hc] at h
  · simp only [if_neg hc, GrowRes.ok.injEq] at h
    subst h
    refine ⟨⟨?_, ?_⟩, rfl, by dsimp only; omega, ?_⟩
    · simp only
      omega
    · simp only
      rw [copyLoop_length, List.length_replicate]
    · intro i hi
      dsimp only
      rw [copyLoop_get?_lt z _ _ hi, List.length_replicate,
        if_pos (by omega), get?_of_getD z (by omega)]

/-- Full characterisation of a successful `set`. -/
theorem set_ok_spec {z : α} {policy : Nat → Nat} {fuel : Nat}
    {a a1 : DynamicArray α} {index : Nat} {v : α} (hw : a.Wf)
    (h : a.set z policy fuel index v = SetRes.ok a1) :
    a1.Wf ∧ a1.length = max a.length (index + 1) ∧
      a.capacity ≤ a1.capacity ∧ index < a1.capacity ∧
      a1.array.get? index = some v ∧
      ∀ i, i < a.length → i ≠ index → a1.array.get? i = a.array.get? i := by
  rcases hw with ⟨hlen, hcap⟩
  unfold DynamicArray.set at h
  by_cases hc : a.capacity ≤ index
  · simp only [if_pos hc] at h
    rcases hg : growLoop policy a.capacity index fuel a.capacity with _ | r
    · rw [hg] at h
      simp at h
    · rcases r with c | c
      · rw [hg] at h
        simp only [SetRes.ok.injEq] at h
        subst h
        rcases growLoop_ok hg with ⟨hic, hsnap⟩
        have hbig : a.capacity < c := by omega
        have hA1len :
            (copyLoop z a.array (List.replicate c z) a.length).length = c := by
          rw [copyLoop_length, List.length_replicate]
        refine ⟨⟨?_, ?_⟩, ?_, ?_, ?_, ?_, ?_⟩
        · rw [finishSet_length]
          simp only [finishSet]
          omega
        · simp only [finishSet, List.length_set]
          exact hA1len.symm
        · rw [finishSet_length]
        · simp only [finishSet]
          omega
        · simp only [finishSet]
          omega
        · simp only [finishSet]
          rw [List.get?_set_eq_of_lt _ (by rw [hA1len]; omega)]
        · intro i hi hne
          simp only [finishSet]
          rw [List.get?_set_ne _ _ (Ne.symm hne),
            copyLoop_get?_lt z _ _ hi, List.length_replicate,
            if_pos (by omega), get?_of_getD z (by omega)]
      · rw [hg] at h
        simp at h
  · simp only [if_neg hc] at h
    simp only [SetRes.ok.injEq] at h
    subst h
    have hic : index < a.capacity := by omega
    refine ⟨⟨?_, ?_⟩, finishSet_length a index v, ?_, ?_, ?_, ?_⟩
    · rw [finishSet_length]
      simp only [finishSet]
      omega
    · simp only [finishSet, List.length_set]
      exact hcap
    · simp only [finishSet]
      omega
    · simp only [finishSet]
      omega
    · simp only [finishSet]
      rw [List.get?_set_eq_of_lt _ (by omega)]
    · intro i hi hne
      simp only [finishSet]
      rw [List.get?_set_ne _ _ (Ne.symm hne)]

/-- Full characterisation of a successful `push`. -/
theorem push_ok_spec {z : α} {policy : Nat → Nat} {a a1 : DynamicArray α}
    {v : α} {r : Nat} (hw : a.Wf) (h : a.push z policy v = PushRes.ok a1 r) :
    a1.Wf ∧ a1.length = a.length + 1 ∧ r = a.length + 1 ∧
      a.capacity ≤ a1.capacity ∧ a1.array.get? a.length = some v ∧
      ∀ i, i < a.length → a1.array.get? i = a.array.get? i := by
  have hw2 := hw
  rcases hw with ⟨hlen, hcap⟩
  unfold DynamicArray.push at h
  by_cases hc : a.capacity ≤ a.length
  · simp only [if_pos hc] at h
    rcases hg : a.grow z policy with a2 | s
    · rw [hg] at h
      simp only [PushRes.ok.injEq] at h
      rcases h with ⟨h1, h2⟩
      subst h1
      rcases grow_ok_spec hw2 hg with ⟨⟨hl2, hc2⟩, hlen2, hcap2, hpre2⟩
      have hin : a2.length < a2.array.length := by omega
      refine ⟨⟨?_, ?_⟩, ?_, by omega, ?_, ?_, ?_⟩
      · simp only
        omega
      · simp only [List.length_set]
        omega
      · simp only
        omega
      · simp only
        omega
      · simp only
        rw [← hlen2, List.get?_set_eq_of_lt _ hin]
      · intro i hi
        dsimp only
        rw [List.get?_set_ne _ _ (by omega), hpre2 i hi]
    · rw [hg] at h
      simp at h
  · simp only [if_neg hc] at h
    simp only [PushRes.ok.injEq] at h
    rcases h with ⟨h1, h2⟩
    subst h1
    have hin : a.length < a.array.length := by omega
    refine ⟨⟨?_, ?_⟩, ?_, by omega, ?_, ?_, ?_⟩
    · simp only
      omega
    · simp only [List.length_set]
      omega
    · simp only
    · simp only
      omega
    · simp only
      rw [List.get?_set_eq_of_lt _ hin]
    · intro i hi
      dsimp only
      rw [List.get?_set_ne _ _ (by omega)]

/-- A freshly constructed buffer is well formed. -/
theorem make_wf (z : α) (c0 : Nat) : (DynamicArray.make z c0).Wf :=
  ⟨Nat.zero_le _, (List.length_replicate c0 z).symm⟩

/-- `pop` always preserves well-formedness. -/
theorem pop_wf {a : DynamicArray α} (hw : a.Wf) : (a.pop).1.Wf := by
  rcases hw with ⟨h1, h2⟩
  unfold DynamicArray.pop
  by_cases h0 : a.length = 0
  · simp only [if_pos h0]
    exact ⟨h1, h2⟩
  · simp only [if_neg h0]
    exact ⟨by dsimp only; omega, h2⟩

/-- Every operation that completes preserves well-formedness. -/
theorem step_wf {z : α} {policy : Nat → Nat} {fuel : Nat}
    {a a1 : DynamicArray α} {op : Op α} (hw : a.Wf)
    (h : step z policy fuel a op = some a1) : a1.Wf := by
  cases op with
  | get i =>
    simp only [step, Option.some.injEq] at h
    exact h ▸ hw
  | set i v =>
    simp only [step] at h
    rcases hs : a.set z policy fuel i v with a2 | a2 | _ <;> rw [hs] at h
    · simp only [Option.some.injEq] at h
      exact h ▸ (set_ok_spec hw hs).1
    · simp at h
    · simp at h
  | push v =>
    simp only [step] at h
    rcases hs : a.push z policy v with ⟨a2, r⟩ | a2 <;> rw [hs] at h
    · simp only [Option.some.injEq] at h
      exact h ▸ (push_ok_spec hw hs).1
    · simp at h
  | pop =>
    simp only [step, Option.some.injEq] at h
    exact h ▸ pop_wf hw
  | grow =>
    simp only [step] at h
    rcases hs : a.grow z policy with a2 | a2 <;> rw [hs] at h
    · simp only [Option.some.injEq] at h
      exact h ▸ (grow_ok_spec hw hs).1
    · simp at h

/-- A completed sequence of operations preserves well-formedness. -/
theorem runOps_wf {z : α} {policy : Nat → Nat} {fuel : Nat} :
    ∀ (ops : List (Op α)) (a s : DynamicArray α), a.Wf →
      runOps z policy fuel a ops = some s → s.Wf := by
  intro ops
  induction ops with
  | nil =>
    intro a s hw h
    simp only [runOps, Option.some.injEq] at h
    exact h ▸ hw
  | cons op ops ih =>
    intro a s hw h
    simp only [runOps] at h
    rcases hs : step z policy fuel a op with _ | a1 <;> rw [hs] at h
    · simp at h
    · exact ih a1 s (step_wf hw hs) h

/-- Counterexample to claim C5: the claim quantifies over any finite
operation sequence, but a sequence whose last `push` triggers a
`PolicyViolation` (here the policy `_ -> 1` on a full two-slot buffer, the
throw caught by the caller) leaves the buffer with `length 2 > capacity 1`
and `capacity 1` different from the allocated block size 2 — both invariant
conjuncts fail after the three-push sequence. -/
theorem claim_C5_counterexample :
    runOpsCatch (0 : Int) (fun _ => 1) 5 (DynamicArray.make 0 2)
        [Op.push 5, Op.push 7, Op.push 9] =
      some { length := 2, capacity := 1, array := [5, 7] } ∧
    ¬ (({ length := 2, capacity := 1, array := [(5 : Int), 7] } :
          DynamicArray Int).length ≤
        ({ length := 2, capacity := 1, array := [(5 : Int), 7] } :
          DynamicArray Int).capacity) ∧
    ¬ (({ length := 2, capacity := 1, array := [(5 : Int), 7] } :
          DynamicArray Int).capacity =
        ({ length := 2, capacity := 1, array := [(5 : Int), 7] } :
          DynamicArray Int).array.length) := by
  decide

/-- Amended claim C5: after any finite sequence of get/set/push/pop/grow
operations in which every operation completes without a `PolicyViolation`
(and every growth loop terminates), starting from a freshly constructed
buffer, `0 <= length <= capacity` holds and the capacity field equals the
allocated size of the backing storage block. (A caught `PolicyViolation` can
break both conjuncts for good, because the failed call has already
overwritten the capacity field — see the counterexample.) -/
theorem claim_C5_length_capacity_invariant (z : α) (policy : Nat → Nat)
    (fuel c0 : Nat) (ops : List (Op α)) (s : DynamicArray α)
    (h : runOps z policy fuel (DynamicArray.make z c0) ops = some s) :
    0 ≤ s.length ∧ s.length ≤ s.capacity ∧ s.capacity = s.array.length := by
  rcases runOps_wf ops (DynamicArray.make z c0) s (make_wf z c0) h with ⟨h1, h2⟩
  exact ⟨Nat.zero_le _, h1, h2⟩

/-- Witness for the amended C5: a concrete all-successful push/pop/set run
from a fresh buffer of capacity 2 ends in state
`(length 1, capacity 2, block [5,0])`, which satisfies the invariant. -/
theorem claim_C5_length_capacity_invariant_witness :
    runOps (0 : Int) DEFAULT_GROWING_POLICY 3 (DynamicArray.make 0 2)
        [Op.push 7, Op.pop, Op.set 0 5] =
      some { length := 1, capacity := 2, array := [5, 0] } ∧
    (0 ≤ (1 : Nat) ∧ 1 ≤ 2 ∧ 2 =
      ({ length := 1, capacity := 2, array := [(5 : Int), 0] } :
        DynamicArray Int).array.length) :=
  ⟨by decide,
    claim_C5_length_capacity_invariant 0 DEFAULT_GROWING_POLICY 3 2
      [Op.push 7, Op.pop, Op.set 0 5]
      { length := 1, capacity := 2, array := [5, 0] } (by decide)⟩

/-- Claim C6: every reallocation — a `set` with `index >= capacity`, an
explicit `grow`, or the implicit grow of a `push` with `length >= capacity` —
preserves the values of all slots at indices strictly below the length held
before the reallocation. -/
theorem claim_C6_realloc_keeps_front (z : α) (policy : Nat → Nat) :
    (∀ (fuel : Nat) (a a1 : DynamicArray α) (index : Nat) (v : α), a.Wf →
      a.capacity ≤ index → a.set z policy fuel index v = SetRes.ok a1 →
      ∀ i, i < a.length → a1.array.get? i = a.array.get? i) ∧
    (∀ (a a1 : DynamicArray α), a.Wf → a.grow z policy = GrowRes.ok a1 →
      ∀ i, i < a.length → a1.array.get? i = a.array.get? i) ∧
    (∀ (a a1 : DynamicArray α) (v : α) (r : Nat), a.Wf →
      a.capacity ≤ a.length → a.push z policy v = PushRes.ok a1 r →
      ∀ i, i < a.length → a1.array.get? i = a.array.get? i) := by
  refine ⟨?_, ?_, ?_⟩
  · intro fuel a a1 index v hw hcap h i hi
    exact (set_ok_spec hw h).2.2.2.2.2 i hi (by rcases hw with ⟨h1, _⟩; omega)
  · intro a a1 hw h i hi
    exact (grow_ok_spec hw h).2.2.2 i hi
  · intro a a1 v r hw hcap h i hi
    exact (push_ok_spec hw h).2.2.2.2.2 i hi

/-- Witness for C6: growing `(length 2, capacity 2, block [5,7])` with the
default policy reallocates to capacity 3 and slot 1 keeps its value. -/
theorem claim_C6_realloc_keeps_front_witness :
    ({ length := 2, capacity := 2, array := [(5 : Int), 7] } :
        DynamicArray Int).Wf ∧
    DynamicArray.grow (0 : Int) DEFAULT_GROWING_POLICY
        { length := 2, capacity := 2, array := [5, 7] } =
      GrowRes.ok { length := 2, capacity := 3, array := [(5 : Int), 7, 0] } ∧
    ({ length := 2, capacity := 3, array := [(5 : Int), 7, 0] } :
        DynamicArray Int).array.get? 1 =
      ({ length := 2, capacity := 2, array := [(5 : Int), 7] } :
        DynamicArray Int).array.get? 1 :=
  ⟨by decide, by decide,
    (claim_C6_realloc_keeps_front 0 DEFAULT_GROWING_POLICY).2.1
      { length := 2, capacity := 2, array := [(5 : Int), 7] }
      { length := 2, capacity := 3, array := [(5 : Int), 7, 0] }
      (by decide) (by decide) 1 (by decide)⟩

/-- Claim C7: a successful `set(index, value)` sets the length to
`max (old length) (index + 1)`, makes `get index` return the written value,
and returns the buffer itself (the `SetRes.ok` payload is the updated buffer
that the source's `return this` yields). -/
theorem claim_C7_set_updates_length_and_value (z : α) (policy : Nat → Nat)
    (fuel : Nat) (a a1 : DynamicArray α) (index : Nat) (v : α) (hw : a.Wf)
    (h : a.set z policy fuel index v = SetRes.ok a1) :
    a1.length = max a.length (index + 1) ∧ a1.get index = some v := by
  rcases set_ok_spec hw h with ⟨_, hlen, _, _, hget, _⟩
  refine ⟨hlen, ?_⟩
  unfold DynamicArray.get
  rw [if_neg (by omega), hget]

/-- Witness for C7: `set(5, 7)` on an empty buffer of capacity 10 yields
length `6 = max 0 6` and `get 5 = 7`. -/
theorem claim_C7_set_updates_length_and_value_witness :
    DynamicArray.set (0 : Int) DEFAULT_GROWING_POLICY 0
        (DynamicArray.make 0 10) 5 7 =
      SetRes.ok
        { length := 6, capacity := 10, array := [(0 : Int), 0, 0, 0, 0, 7, 0, 0, 0, 0] } ∧
    (({ length := 6, capacity := 10, array := [(0 : Int), 0, 0, 0, 0, 7, 0, 0, 0, 0] } :
          DynamicArray Int).length =
        max (DynamicArray.make (0 : Int) 10).length (5 + 1) ∧
      ({ length := 6, capacity := 10, array := [(0 : Int), 0, 0, 0, 0, 7, 0, 0, 0, 0] } :
          DynamicArray Int).get 5 = some 7) :=
  ⟨by decide,
    claim_C7_set_updates_length_and_value 0 DEFAULT_GROWING_POLICY 0
      (DynamicArray.make 0 10)
      { length := 6, capacity := 10, array := [(0 : Int), 0, 0, 0, 0, 7, 0, 0, 0, 0] }
      5 7 (make_wf 0 10) (by decide)⟩

/-- Pushing a list of values appends them, in order, after the existing
contents, and adds the list's length to the buffer's length. -/
theorem pushSeq_spec {z : α} {policy : Nat → Nat} :
    ∀ (vs : List α) (a s : DynamicArray α), a.Wf →
      pushSeq z policy a vs = some s →
      s.Wf ∧ s.length = a.length + vs.length ∧
        (∀ i, i < a.length → s.array.get? i = a.array.get? i) ∧
        (∀ j, j < vs.length → s.array.get? (a.length + j) = vs.get? j) := by
  intro vs
  induction vs with
  | nil =>
    intro a s hw h
    simp only [pushSeq, Option.some.injEq] at h
    subst h
    exact ⟨hw, by simp, fun i _ => rfl, fun j hj => by simp at hj⟩
  | cons v vs ih =>
    intro a s hw h
    simp only [pushSeq] at h
    rcases hp : a.push z policy v with ⟨a1, r⟩ | a1 <;> rw [hp] at h
    · rcases push_ok_spec hw hp with ⟨hw1, hlen1, _, _, hget1, hpres1⟩
      rcases ih a1 s hw1 h with ⟨hws, hlen, hpres, hvals⟩
      refine ⟨hws, by simp only [List.length_cons]; omega, ?_, ?_⟩
      · intro i hi
        rw [hpres i (by omega), hpres1 i hi]
      · intro j hj
        cases j with
        | zero =>
          rw [Nat.add_zero, hpres a.length (by omega), hget1]
          rfl
        | succ j1 =>
          have hv := hvals j1 (by simp only [List.length_cons] at hj; omega)
          rw [show a.length + (j1 + 1) = a1.length + j1 by omega]
          rw [hv]
          rfl
    · simp at h

/-- Claim C8: a sequence of `n` pushes that runs to completion on a freshly
constructed (hence empty) buffer yields `length = n`, afterwards `get i`
returns the `i`-th pushed value for every `i < n`, and every successful
`push` returns the length after its increment. -/
theorem claim_C8_push_monotone (z : α) (policy : Nat → Nat) (c0 : Nat)
    (vs : List α) (s : DynamicArray α)
    (h : pushSeq z policy (DynamicArray.make z c0) vs = some s) :
    s.length = vs.length ∧
    (∀ i, i < vs.length → s.get i = vs.get? i) ∧
    (∀ (a a1 : DynamicArray α) (v : α) (r : Nat),
      a.push z policy v = PushRes.ok a1 r → r = a1.length) := by
  rcases pushSeq_spec vs (DynamicArray.make z c0) s (make_wf z c0) h with
    ⟨_, hlen, _, hvals⟩
  refine ⟨by simpa [DynamicArray.make] using hlen, ?_, ?_⟩
  · intro i hi
    have hv := hvals i hi
    rw [show (DynamicArray.make z c0).length + i = i by
      simp [DynamicArray.make]] at hv
    unfold DynamicArray.get
    rw [if_neg (by simp [DynamicArray.make] at hlen; omega), hv]
  · intro a a1 v r hp
    unfold DynamicArray.push at hp
    by_cases hc : a.capacity ≤ a.length
    · simp only [if_pos hc] at hp
      rcases hg : a.grow z policy with a2 | a2 <;> rw [hg] at hp
      · simp only [PushRes.ok.injEq] at hp
        rcases hp with ⟨h1, h2⟩
        subst h1
        dsimp only
        omega
      · simp at hp
    · simp only [if_neg hc, PushRes.ok.injEq] at hp
      rcases hp with ⟨h1, h2⟩
      subst h1
      dsimp only
      omega

/-- Witness for C8: pushing `[3, 1, 2]` from a fresh zero-capacity buffer
with the strictly increasing policy `c + 1` ends with length 3 and the values
readable in order. -/
theorem claim_C8_push_monotone_witness :
    pushSeq (0 : Int) (fun c => c + 1) (DynamicArray.make 0 0) [3, 1, 2] =
      some { length := 3, capacity := 3, array := [3, 1, 2] } ∧
    ({ length := 3, capacity := 3, array := [(3 : Int), 1, 2] } :
      DynamicArray Int).length = [(3 : Int), 1, 2].length ∧
    ({ length := 3, capacity := 3, array := [(3 : Int), 1, 2] } :
      DynamicArray Int).get 1 = [(3 : Int), 1, 2].get? 1 :=
  ⟨by decide,
    (claim_C8_push_monotone (0 : Int) (fun c => c + 1) 0 [3, 1, 2]
      { length := 3, capacity := 3, array := [(3 : Int), 1, 2] } (by decide)).1,
    (claim_C8_push_monotone (0 : Int) (fun c => c + 1) 0 [3, 1, 2]
      { length := 3, capacity := 3, array := [(3 : Int), 1, 2] } (by decide)).2.1
      1 (by decide)⟩

/-- Claim C9: on a non-empty buffer, `pop()` followed by `push` of the popped
value completes and restores the prior observable state: the same length and
the same `get` result at every index below the length. -/
theorem claim_C9_pop_push_inverse (z : α) (policy : Nat → Nat)
    (a : DynamicArray α) (hw : a.Wf) (hpos : 0 < a.length) :
    popThenPush z policy a ≠ none ∧
    ∀ a2, popThenPush z policy a = some a2 →
      a2.length = a.length ∧ ∀ i, i < a.length → a2.get i = a.get i := by
  rcases hw with ⟨h1, h2⟩
  have hlt : a.length - 1 < a.array.length := by omega
  have hpop : a.pop = ({ a with length := a.length - 1 },
      some (a.array.getD (a.length - 1) z)) := by
    unfold DynamicArray.pop
    rw [if_neg (by omega), get?_of_getD z hlt]
  have hpush : popThenPush z policy a =
      some { a with
        array := a.array.set (a.length - 1) (a.array.getD (a.length - 1) z)
        length := a.length - 1 + 1 } := by
    unfold popThenPush
    rw [hpop]
    dsimp only
    unfold DynamicArray.push
    rw [if_neg (by dsimp only; omega)]
  refine ⟨by rw [hpush]; simp, ?_⟩
  intro a2 hh
  rw [hpush, Option.some.injEq] at hh
  subst hh
  constructor
  · dsimp only
    omega
  · intro i hi
    unfold DynamicArray.get
    dsimp only
    rw [if_neg (by omega), if_neg (by omega)]
    by_cases he : i = a.length - 1
    · subst he
      rw [List.get?_set_eq_of_lt _ hlt, get?_of_getD z hlt]
    · rw [List.get?_set_ne _ _ (Ne.symm he)]

/-- Witness for C9: popping `(length 2, capacity 2, block [5,7])` and pushing
the popped value 7 back completes and leaves the observable state intact. -/
theorem claim_C9_pop_push_inverse_witness :
    popThenPush (0 : Int) DEFAULT_GROWING_POLICY
        { length := 2, capacity := 2, array := [5, 7] } ≠ none ∧
    ({ length := 2, capacity := 2, array := [(5 : Int), 7] } :
        DynamicArray Int).get 1 =
      ({ length := 2, capacity := 2, array := [(5 : Int), 7] } :
        DynamicArray Int).get 1 :=
  ⟨(claim_C9_pop_push_inverse 0 DEFAULT_GROWING_POLICY
      { length := 2, capacity := 2, array := [(5 : Int), 7] }
      (by decide) (by decide)).1,
    ((claim_C9_pop_push_inverse 0 DEFAULT_GROWING_POLICY
      { length := 2, capacity := 2, array := [(5 : Int), 7] }
      (by decide) (by decide)).2
      { length := 2, capacity := 2, array := [(5 : Int), 7] }
      (by decide)).2 1 (by decide)⟩

/-- Claim C10: a `set` below the current capacity performs no reallocation:
it returns `finishSet a index v`, whose capacity and block size equal the old
ones, only the target slot of the block may change, and the length becomes
`max length (index + 1)`. -/
theorem claim_C10_set_below_capacity_no_realloc (z : α) (policy : Nat → Nat)
    (fuel : Nat) (a : DynamicArray α) (index : Nat) (v : α)
    (h : index < a.capacity) :
    a.set z policy fuel index v = SetRes.ok (finishSet a index v) ∧
    (finishSet a index v).capacity = a.capacity ∧
    (finishSet a index v).array.length = a.array.length ∧
    (finishSet a index v).length = max a.length (index + 1) ∧
    ∀ j, j ≠ index → (finishSet a index v).array.get? j = a.array.get? j := by
  refine ⟨?_, rfl, ?_, finishSet_length a index v, ?_⟩
  · unfold DynamicArray.set
    rw [if_neg (by omega)]
  · dsimp only [finishSet]
    exact List.length_set a.array index v
  · intro j hj
    dsimp only [finishSet]
    rw [List.get?_set_ne _ _ (Ne.symm hj)]

/-- Witness for C10: `set(2, 9)` on `(length 1, capacity 3, block [4,0,0])`
stays in place: capacity 3, same block size, slot 0 untouched. -/
theorem claim_C10_set_below_capacity_no_realloc_witness :
    DynamicArray.set (0 : Int) DEFAULT_GROWING_POLICY 0
        { length := 1, capacity := 3, array := [4, 0, 0] } 2 9 =
      SetRes.ok
        (finishSet { length := 1, capacity := 3, array := [(4 : Int), 0, 0] } 2 9) ∧
    (finishSet { length := 1, capacity := 3, array := [(4 : Int), 0, 0] }
        2 9).array.get? 0 =
      ({ length := 1, capacity := 3, array := [(4 : Int), 0, 0] } :
        DynamicArray Int).array.get? 0 :=
  ⟨(claim_C10_set_below_capacity_no_realloc 0 DEFAULT_GROWING_POLICY 0
      { length := 1, capacity := 3, array := [(4 : Int), 0, 0] } 2 9
      (by decide)).1,
    (claim_C10_set_below_capacity_no_realloc 0 DEFAULT_GROWING_POLICY 0
      { length := 1, capacity := 3, array := [(4 : Int), 0, 0] } 2 9
      (by decide)).2.2.2.2 0 (by decide)⟩

/-- Claim C1 is refuted by the source (code bug): the guard of `get` is the
strict `this.length < index`, so at the boundary `index == length` the method
falls through and returns `this.array[index]`. On a fresh one-slot buffer
`get(0)` returns the zero fill value, and after `push(7); pop()` the state is
`(length 0, capacity 1, block [7])` where `get(0)` returns the just-popped
stored value 7 — never the absent result the claim requires for
`index >= length`. -/
theorem claim_C1_get_at_length_returns_slot :
    DynamicArray.push (0 : Int) DEFAULT_GROWING_POLICY
        (DynamicArray.make 0 1) 7 =
      PushRes.ok { length := 1, capacity := 1, array := [(7 : Int)] } 1 ∧
    ({ length := 1, capacity := 1, array := [(7 : Int)] } :
        DynamicArray Int).pop =
      ({ length := 0, capacity := 1, array := [7] }, some 7) ∧
    ({ length := 0, capacity := 1, array := [(7 : Int)] } :
        DynamicArray Int).get 0 = some 7 ∧
    (DynamicArray.make (0 : Int) 1).get 0 = some 0 := by
  decide

/-- Counterexample to claim C2: on a buffer constructed with capacity 0 and
the default policy, `set(0, 7)` does not succeed — the first policy
application yields `ceil(0 * 1.5) = 0`, which fails the strict-increase
check, so the call throws `PolicyViolation`. -/
theorem claim_C2_counterexample :
    DynamicArray.set (0 : Int) DEFAULT_GROWING_POLICY 1
        (DynamicArray.make 0 0) 0 7 =
      SetRes.policyViolation (DynamicArray.make 0 0) ∧
    DEFAULT_GROWING_POLICY 0 = 0 := by
  decide

/-- Amended claim C2: `set(0, v)` on a zero-capacity buffer with the default
growth policy always fails with `PolicyViolation` on the first policy
application (for any positive fuel, so the loop terminates immediately rather
than spinning), leaving the buffer state unchanged. -/
theorem claim_C2_zero_capacity_set_fails (fuel : Nat) (z v : α) :
    DynamicArray.set z DEFAULT_GROWING_POLICY (fuel + 1)
        (DynamicArray.make z 0) 0 v =
      SetRes.policyViolation (DynamicArray.make z 0) := by
  have hg : growLoop DEFAULT_GROWING_POLICY 0 0 (fuel + 1) 0 =
      some (LoopRes.bad 0) := rfl
  simp only [DynamicArray.set, DynamicArray.make]
  rw [hg]
  rfl

/-- On a `PolicyViolation` in `grow`, length and block are untouched but the
capacity field has already been overwritten with the policy's return value. -/
theorem grow_violation_spec {z : α} {policy : Nat → Nat}
    {a s : DynamicArray α} (h : a.grow z policy = GrowRes.policyViolation s) :
    s.length = a.length ∧ s.array = a.array ∧
      s.capacity = policy a.capacity ∧ policy a.capacity ≤ a.capacity := by
  unfold DynamicArray.grow at h
  by_cases hc : policy a.capacity ≤ a.capacity
  · simp only [if_pos hc, GrowRes.policyViolation.injEq] at h
    subst h
    exact ⟨rfl, rfl, rfl, hc⟩
  · simp [hc] at h

/-- On a `PolicyViolation` in `set`, length and block are untouched but the
capacity field has been overwritten with the loop's failing value, which is
at most the capacity `set` started from. -/
theorem set_violation_spec {z : α} {policy : Nat → Nat} {fuel : Nat}
    {a s : DynamicArray α} {index : Nat} {v : α}
    (h : a.set z policy fuel index v = SetRes.policyViolation s) :
    s.length = a.length ∧ s.array = a.array ∧ s.capacity ≤ a.capacity := by
  unfold DynamicArray.set at h
  by_cases hc : a.capacity ≤ index
  · simp only [if_pos hc] at h
    rcases hg : growLoop policy a.capacity index fuel a.capacity with _ | r
    · rw [hg] at h
      simp at h
    · rcases r with c | c
      · rw [hg] at h
        simp at h
      · rw [hg] at h
        simp only [SetRes.policyViolation.injEq] at h
        subst h
        exact ⟨rfl, rfl, growLoop_bad hg⟩
  · simp only [if_neg hc] at h
    simp at h

/-- The stalling policy keeps the growth loop of `set` spinning forever once
the capacity is in `1..4` and the index is 10: for every fuel the loop
neither exits nor reports a violation against the snapshot 0. -/
theorem stall_growLoop_spins :
    ∀ (fuel c : Nat), 0 < c → c ≤ 4 →
      growLoop stallPolicy 0 10 fuel c = none := by
  intro fuel
  induction fuel with
  | zero =>
    intro c h1 h2
    rw [growLoop, if_neg (by omega)]
  | succ f ih =>
    intro c h1 h2
    rw [growLoop, if_neg (by omega)]
    dsimp only
    rw [if_neg (by simp only [stallPolicy]; omega)]
    exact ih (stallPolicy c) (by simp only [stallPolicy]; omega)
      (by simp only [stallPolicy]; omega)

/-- Counterexample to claim C3: with `oscPolicy` (0 -> 5 -> 3 -> 20) and
index 6 on a zero-capacity buffer, the application at capacity 5 returns 3,
which is not a strict increase, yet the loop raises no `PolicyViolation` and
`set` succeeds — the source compares each application against the snapshot
capacity at loop entry, not against the value it was applied to. -/
theorem claim_C3_counterexample :
    oscPolicy 0 = 5 ∧ oscPolicy 5 = 3 ∧ oscPolicy 3 = 20 ∧
    growLoop oscPolicy 0 6 10 0 = some (LoopRes.ok 20) ∧
    DynamicArray.set (0 : Int) oscPolicy 10 (DynamicArray.make 0 0) 6 1 =
      SetRes.ok { length := 7, capacity := 20, array := List.replicate 6 (0 : Int) ++ 1 :: List.replicate 13 0 } := by
  decide

/-- Amended claim C3: each policy application in the growth loop is checked
against the snapshot of the capacity taken when `set` started, not against
the capacity it was applied to: a violation is reported exactly when an
application returns a value at most that snapshot (and the reported value is
that application's result), while a policy that stalls strictly above the
snapshot but at most the index makes the loop spin for ever (here for any
amount of fuel). -/
theorem claim_C3_snapshot_strict_increase_check :
    (∀ (policy : Nat → Nat) (cap0 index fuel c bad : Nat),
      growLoop policy cap0 index fuel c = some (LoopRes.bad bad) →
        bad ≤ cap0) ∧
    (∀ (policy : Nat → Nat) (cap0 index fuel c : Nat), ¬ index < c →
      policy c ≤ cap0 →
      growLoop policy cap0 index (fuel + 1) c =
        some (LoopRes.bad (policy c))) ∧
    (∀ (z : α) (policy : Nat → Nat) (fuel : Nat) (a s : DynamicArray α)
      (index : Nat) (v : α),
      a.set z policy fuel index v = SetRes.policyViolation s →
      s.capacity ≤ a.capacity) ∧
    (∀ fuel, growLoop stallPolicy 0 10 fuel 0 = none) := by
  refine ⟨?_, ?_, ?_, ?_⟩
  · intro policy cap0 index fuel c bad h
    exact growLoop_bad h
  · intro policy cap0 index fuel c h1 h2
    rw [growLoop, if_neg h1]
    dsimp only
    rw [if_pos h2]
  · intro z policy fuel a s index v h
    exact (set_violation_spec h).2.2
  · intro fuel
    cases fuel with
    | zero => rw [growLoop, if_neg (by omega)]
    | succ f =>
      rw [growLoop, if_neg (by omega)]
      dsimp only
      rw [if_neg (by simp only [stallPolicy]; omega)]
      exact stall_growLoop_spins f (stallPolicy 0) (by decide) (by decide)

/-- Witness for the amended C3: a policy that immediately returns 0 at entry
capacity 0 with index 5 reports a violation carrying that value. -/
theorem claim_C3_snapshot_strict_increase_check_witness :
    growLoop (fun _ => 0) 0 5 1 0 = some (LoopRes.bad 0) :=
  (@claim_C3_snapshot_strict_increase_check Int).2.1 (fun _ => 0) 0 5 0 0
    (by decide) (by decide)

/-- Counterexample to claim C4: with the decreasing policy `_ -> 0` on a
buffer of capacity 4, `grow()` fails with `PolicyViolation` but the buffer's
capacity field has been changed from 4 to 0 by the failed call — the
observable state is not unchanged. -/
theorem claim_C4_counterexample :
    DynamicArray.grow (0 : Int) (fun _ => 0) (DynamicArray.make 0 4) =
      GrowRes.policyViolation
        { length := 0, capacity := 0, array := List.replicate 4 (0 : Int) } ∧
    (DynamicArray.make (0 : Int) 4).capacity = 4 := by
  decide

/-- Amended claim C4: when `set` or `grow` fails with `PolicyViolation`, the
length, the stored values and the allocated block are unchanged and no
reallocation occurs, but the capacity field has been overwritten with the
policy's returned value — equal to the old capacity only when the policy
returned exactly the old capacity (e.g. an identity policy), and strictly
smaller for a decreasing policy. -/
theorem claim_C4_violation_leaves_all_but_capacity :
    (∀ (z : α) (policy : Nat → Nat) (a s : DynamicArray α),
      a.grow z policy = GrowRes.policyViolation s →
      s.length = a.length ∧ s.array = a.array ∧
        s.capacity = policy a.capacity ∧ policy a.capacity ≤ a.capacity) ∧
    (∀ (z : α) (policy : Nat → Nat) (fuel : Nat) (a s : DynamicArray α)
      (index : Nat) (v : α),
      a.set z policy fuel index v = SetRes.policyViolation s →
      s.length = a.length ∧ s.array = a.array ∧ s.capacity ≤ a.capacity) := by
  refine ⟨?_, ?_⟩
  · intro z policy a s h
    exact grow_violation_spec h
  · intro z policy fuel a s index v h
    exact set_violation_spec h

/-- Witness for the amended C4: a failed `grow` under the identity policy on
a two-slot buffer keeps the block `[0, 0]` and leaves the capacity at the
identity policy's result. -/
theorem claim_C4_violation_leaves_all_but_capacity_witness :
    DynamicArray.grow (0 : Int) (fun c => c)
        { length := 0, capacity := 2, array := [0, 0] } =
      GrowRes.policyViolation { length := 0, capacity := 2, array := [(0 : Int), 0] } ∧
    ({ length := 0, capacity := 2, array := [(0 : Int), 0] } :
        DynamicArray Int).array =
      ({ length := 0, capacity := 2, array := [(0 : Int), 0] } :
        DynamicArray Int).array ∧
    (2 : Nat) ≤ 2 :=
  ⟨by decide,
    (claim_C4_violation_leaves_all_but_capacity.1 (0 : Int) (fun c => c)
      { length := 0, capacity := 2, array := [(0 : Int), 0] }
      { length := 0, capacity := 2, array := [(0 : Int), 0] }
      (by decide)).2.1,
    (claim_C4_violation_leaves_all_but_capacity.1 (0 : Int) (fun c => c)
      { length := 0, capacity := 2, array := [(0 : Int), 0] }
      { length := 0, capacity := 2, array := [(0 : Int), 0] }
      (by decide)).2.2.2⟩

end Mnemonist
